import Mathlib

/-!
Verification of the cigar-scraper extraction data model and its
normalization / validation pipeline.

The definitions below are a shallow embedding of the TypeScript source:

* `Json` models a parsed JSON value (the result of `JSON.parse`).
* `sanitizeExtractionData` embeds `sanitizeExtractionData` from
  `src/utils/validation.ts` (lines 373-408).  The JavaScript
  `console.warn` side channel is modelled by returning the list of
  warning messages alongside the value.
* `attemptExtract` / `extractWithRetry` embed the body of
  `extractWithRetry` from the extractor module (the per-attempt
  handling of the OpenAI response content, wrapped in `pRetry`).
* `PAGE_TYPE_ENUM` and `SCHEMA_PACKAGE_TYPE_ENUM` transcribe the enum
  lists of `CIGAR_EXTRACTION_SCHEMA` from the OpenAI schema module.
-/

/-- A parsed JSON value, as produced by `JSON.parse`.  Numbers are
modelled as rationals. -/
inductive Json where
  | null : Json
  | bool : Bool → Json
  | num : Rat → Json
  | str : String → Json
  | arr : List Json → Json
  | obj : List (String × Json) → Json

/-- ASCII lower-casing of one character, the effect of JavaScript
`String.prototype.toLowerCase` on the ASCII range. -/
def jsLowerChar (c : Char) : Char :=
  if 'A' ≤ c ∧ c ≤ 'Z' then Char.ofNat (c.toNat + 32) else c

/-- `s.toLowerCase()` of JavaScript, restricted to ASCII. -/
def jsLower (s : String) : String := ⟨s.data.map jsLowerChar⟩

/-- The `validTypes` array of `sanitizeExtractionData`
(`src/utils/validation.ts`, lines 384-388). -/
def VALID_TYPES : List String :=
  ["single", "pack", "box", "bundle", "sampler",
   "tin", "tube", "cabinet", "case", "sleeve",
   "other", "unspecified"]

/-- The `console.warn` message emitted when an unknown `quantity_type`
is rewritten (`src/utils/validation.ts`, line 392). -/
def warnMsg (original : String) : String :=
  "Unknown quantity_type \"" ++ original ++ "\" found, converting to \"other\""

mutual

/-- Embedding of `sanitizeExtractionData` (`src/utils/validation.ts`,
lines 373-408).  Scalars are returned unchanged (the early
`if (!data || typeof data !== 'object') return data` — note that
`null` is caught by `!data`); arrays are mapped; objects get the
`quantity_type` handling followed by the recursion over all keys.
The second component collects the `console.warn` messages. -/
def sanitizeCore : Json → Json × List String
  | .null => (.null, [])
  | .bool b => (.bool b, [])
  | .num q => (.num q, [])
  | .str s => (.str s, [])
  | .arr xs =>
    let r := sanitizeList xs
    (.arr r.1, r.2)
  | .obj fs =>
    let r := sanitizeFields fs
    (.obj r.1, r.2)
termination_by j => sizeOf j
decreasing_by all_goals (simp_wf;  try omega)

/-- `data.map(sanitizeExtractionData)` on an array. -/
def sanitizeList : List Json → List Json × List String
  | [] => ([], [])
  | x :: xs =>
    let hd := sanitizeCore x
    let tl := sanitizeList xs
    (hd.1 :: tl.1, hd.2 ++ tl.2)
termination_by xs => sizeOf xs
decreasing_by all_goals (simp_wf;  try omega)

/-- The object case: each field receives `sanitizeField`.  This fuses
the up-front `quantity_type` fix with the subsequent
`Object.keys(result).forEach` recursion; the two never overlap on one
field because the fix only touches (truthy) string values and the
recursion only touches (truthy) object values. -/
def sanitizeFields : List (String × Json) → List (String × Json) × List String
  | [] => ([], [])
  | (k, v) :: fs =>
    let hd := sanitizeField k v
    let tl := sanitizeFields fs
    ((k, hd.1) :: tl.1, hd.2 ++ tl.2)
termination_by fs => sizeOf fs
decreasing_by all_goals (simp_wf;  try omega)

/-- What `sanitizeExtractionData` does to a single object field:
the `quantity_type` enum fix for truthy string values
(`if (result.quantity_type && typeof result.quantity_type === 'string')`),
and otherwise the recursion step, which is the identity on anything
that is not an object or array. -/
def sanitizeField (k : String) (v : Json) : Json × List String :=
  if k = "quantity_type" then
    match v with
    | .str s =>
      if s = "" then (.str s, [])
      else
        let normalizedType := jsLower s
        if VALID_TYPES.contains normalizedType then (.str normalizedType, [])
        else (.str "other", [warnMsg s])
    | v => sanitizeCore v
  else sanitizeCore v
termination_by sizeOf v + 1
decreasing_by all_goals (simp_wf;  try omega)

end

/-- The value returned by `sanitizeExtractionData`. -/
def sanitizeExtractionData (x : Json) : Json := (sanitizeCore x).1

/-- The warnings logged by `sanitizeExtractionData` via `console.warn`. -/
def sanitizeWarnings (x : Json) : List String := (sanitizeCore x).2

/-- The `page_type` enum of `CIGAR_EXTRACTION_SCHEMA`
(`src/config/openai-schema.ts`, the `enum` list under `page_type`). -/
def PAGE_TYPE_ENUM : List String :=
  ["blend_page", "brand_page", "search_page", "single_vitola_page",
   "collection_page", "unknown"]

/-- The `package_type` enum of `CIGAR_EXTRACTION_SCHEMA` (the `enum`
list under `offers.items.properties.package_type`), which ends with the
JSON literal `null`, modelled as `none`. -/
def SCHEMA_PACKAGE_TYPE_ENUM : List (Option String) :=
  [some "single", some "pack", some "box", some "bundle", some "sampler",
   some "tin", some "tube", some "cabinet", some "case", some "sleeve",
   some "other", some "unspecified", none]

/-- First-match field lookup on a JSON object, the semantics of
JavaScript property access on parsed JSON (which has no duplicate
keys). -/
def Json.getField? : Json → String → Option Json
  | .obj fs, k => fs.lookup k
  | _, _ => none

/-- Errors an extraction attempt can raise (the `throw new Error(...)`
sites inside the `pRetry` callback of `extractWithRetry`). -/
inductive ExtractError where
  | noContent : ExtractError
  | parseFailure : String → ExtractError
deriving DecidableEq

/-- The response content of one OpenAI call, as seen by the attempt
body: `none` when `response.choices[0]?.message?.content` is absent,
otherwise the raw string together with the result of `JSON.parse`
(`none` when parsing throws).  `JSON.parse` itself is a JavaScript
builtin outside this repository, so its outcome is part of the input. -/
def LLMResponse : Type := Option (String × Option Json)

/-- One attempt of `extractWithRetry` (the async callback passed to
`pRetry`): missing or empty content throws `noContent`; an unparseable
body throws the parse failure; otherwise the parsed tree is sanitized
and returned — no schema check is performed (`// Return the sanitized
data - OpenAI structured outputs already enforce the schema`). -/
def attemptExtract (resp : LLMResponse) : Except ExtractError (Json × List String) :=
  match resp with
  | none => .error .noContent
  | some (content, parsed) =>
    if content = "" then .error .noContent
    else
      match parsed with
      | none => .error (.parseFailure content)
      | some j => .ok (sanitizeCore j)

/-- `extractWithRetry`: `pRetry` with `retries` additional attempts
after the first.  Every `Error` thrown by the attempt body is retried
while attempts remain; the last attempt's error is propagated. -/
def extractWithRetry (retries : Nat) (responses : Nat → LLMResponse) :
    Except ExtractError (Json × List String) :=
  match retries with
  | 0 => attemptExtract (responses 0)
  | n + 1 =>
    match attemptExtract (responses 0) with
    | .ok r => .ok r
    | .error _ => extractWithRetry n (fun i => responses (i + 1))

mutual

/-- Nesting depth of a JSON value (scalars have depth 0). -/
def Json.depth : Json → Nat
  | .null => 0
  | .bool _ => 0
  | .num _ => 0
  | .str _ => 0
  | .arr xs => Json.depthList xs + 1
  | .obj fs => Json.depthFields fs + 1
termination_by j => sizeOf j
decreasing_by all_goals (simp_wf; try omega)

def Json.depthList : List Json → Nat
  | [] => 0
  | x :: xs => max (Json.depth x) (Json.depthList xs)
termination_by xs => sizeOf xs
decreasing_by all_goals (simp_wf; try omega)

def Json.depthFields : List (String × Json) → Nat
  | [] => 0
  | (_, v) :: fs => max (Json.depth v) (Json.depthFields fs)
termination_by fs => sizeOf fs
decreasing_by all_goals (simp_wf; try omega)

end

mutual

/-- `sanitizeCore` with an explicit recursion budget: each descent into
a nested array or object consumes one unit of fuel, and exhausted fuel
is `none`.  This witnesses that the recursion of
`sanitizeExtractionData` needs no more fuel than the nesting depth of
its input, i.e. that it terminates on every finite JSON value. -/
def sanitizeFuel : Nat → Json → Option (Json × List String)
  | _, .null => some (.null, [])
  | _, .bool b => some (.bool b, [])
  | _, .num q => some (.num q, [])
  | _, .str s => some (.str s, [])
  | 0, .arr _ => none
  | n + 1, .arr xs => (sanitizeFuelList n xs).map fun r => (.arr r.1, r.2)
  | 0, .obj _ => none
  | n + 1, .obj fs => (sanitizeFuelFields n fs).map fun r => (.obj r.1, r.2)

def sanitizeFuelList : Nat → List Json → Option (List Json × List String)
  | _, [] => some ([], [])
  | n, x :: xs => do
    let hd ← sanitizeFuel n x
    let tl ← sanitizeFuelList n xs
    some (hd.1 :: tl.1, hd.2 ++ tl.2)

def sanitizeFuelFields : Nat → List (String × Json) → Option (List (String × Json) × List String)
  | _, [] => some ([], [])
  | n, (k, v) :: fs => do
    let hd ← sanitizeFuelField n k v
    let tl ← sanitizeFuelFields n fs
    some ((k, hd.1) :: tl.1, hd.2 ++ tl.2)

def sanitizeFuelField (n : Nat) (k : String) (v : Json) : Option (Json × List String) :=
  if k = "quantity_type" then
    match v with
    | .str s =>
      if s = "" then some (.str s, [])
      else
        let normalizedType := jsLower s
        if VALID_TYPES.contains normalizedType then some (.str normalizedType, [])
        else some (.str "other", [warnMsg s])
    | v => sanitizeFuel n v
  else sanitizeFuel n v

end

/-- `true` for inputs that are not objects or arrays (JavaScript:
`!data || typeof data !== 'object'`, with `null` caught by `!data`). -/
def Json.isScalar : Json → Bool
  | .null => true
  | .bool _ => true
  | .num _ => true
  | .str _ => true
  | .arr _ => false
  | .obj _ => false

/-- The field list of an object, `[]` for anything else. -/
def Json.objFields : Json → List (String × Json)
  | .obj fs => fs
  | _ => []

/-- The condition the spec asserts for one object field: if the key is
`package_type` or `quantity_type`, the value is `null` or a string in
the accepted enum. -/
def targetFieldCond (k : String) (v : Json) : Bool :=
  if k = "package_type" ∨ k = "quantity_type" then
    match v with
    | .null => true
    | .str s => VALID_TYPES.contains s
    | _ => false
  else true

/-- The condition the code actually establishes for one object field:
if the key is `quantity_type` and the value is a string, it is either
empty or a member of the accepted enum. -/
def qtFieldCond (k : String) (v : Json) : Bool :=
  if k = "quantity_type" then
    match v with
    | .str s => s = "" || VALID_TYPES.contains s
    | _ => true
  else true

mutual

/-- The property asserted by the spec for the Normalizer's output:
every occurrence of a field named `package_type` or `quantity_type`,
at any depth, holds either `null` or a string belonging to the
accepted enum. -/
def enumOrNullAtTargets : Json → Bool
  | .null => true
  | .bool _ => true
  | .num _ => true
  | .str _ => true
  | .arr xs => enumOrNullAtTargetsList xs
  | .obj fs => enumOrNullAtTargetsFields fs
termination_by j => sizeOf j
decreasing_by all_goals (simp_wf; try omega)

def enumOrNullAtTargetsList : List Json → Bool
  | [] => true
  | x :: xs => enumOrNullAtTargets x && enumOrNullAtTargetsList xs
termination_by xs => sizeOf xs
decreasing_by all_goals (simp_wf; try omega)

def enumOrNullAtTargetsFields : List (String × Json) → Bool
  | [] => true
  | (k, v) :: fs =>
    targetFieldCond k v && enumOrNullAtTargets v && enumOrNullAtTargetsFields fs
termination_by fs => sizeOf fs
decreasing_by all_goals (simp_wf; try omega)

end

mutual

/-- Every occurrence of a field named `quantity_type` whose value is a
non-empty string holds a member of the accepted enum. -/
def qtStringEnumOK : Json → Bool
  | .null => true
  | .bool _ => true
  | .num _ => true
  | .str _ => true
  | .arr xs => qtStringEnumOKList xs
  | .obj fs => qtStringEnumOKFields fs
termination_by j => sizeOf j
decreasing_by all_goals (simp_wf; try omega)

def qtStringEnumOKList : List Json → Bool
  | [] => true
  | x :: xs => qtStringEnumOK x && qtStringEnumOKList xs
termination_by xs => sizeOf xs
decreasing_by all_goals (simp_wf; try omega)

def qtStringEnumOKFields : List (String × Json) → Bool
  | [] => true
  | (k, v) :: fs =>
    qtFieldCond k v && qtStringEnumOK v && qtStringEnumOKFields fs
termination_by fs => sizeOf fs
decreasing_by all_goals (simp_wf; try omega)

end

mutual

/-- Mask the value of every field named `package_type` or
`quantity_type` (at any depth) with `null`.  Two trees with the same
mask agree exactly on structure, keys, array lengths and all values
outside those targeted fields. -/
def stripTargets : Json → Json
  | .null => .null
  | .bool b => .bool b
  | .num q => .num q
  | .str s => .str s
  | .arr xs => .arr (stripTargetsList xs)
  | .obj fs => .obj (stripTargetsFields fs)
termination_by j => sizeOf j
decreasing_by all_goals (simp_wf; try omega)

def stripTargetsList : List Json → List Json
  | [] => []
  | x :: xs => stripTargets x :: stripTargetsList xs
termination_by xs => sizeOf xs
decreasing_by all_goals (simp_wf; try omega)

def stripTargetsFields : List (String × Json) → List (String × Json)
  | [] => []
  | (k, v) :: fs =>
    (k, if k = "package_type" ∨ k = "quantity_type" then Json.null else stripTargets v)
      :: stripTargetsFields fs
termination_by fs => sizeOf fs
decreasing_by all_goals (simp_wf; try omega)

end

mutual

/-- Structural identity: same constructor at every position, the same
keys in the same order in every object, the same length of every
array; leaf scalar values are not compared. -/
def sameShape : Json → Json → Bool
  | .null, .null => true
  | .bool _, .bool _ => true
  | .num _, .num _ => true
  | .str _, .str _ => true
  | .arr xs, .arr ys => sameShapeList xs ys
  | .obj fs, .obj gs => sameShapeFields fs gs
  | _, _ => false
termination_by a _ => sizeOf a
decreasing_by all_goals (simp_wf; try omega)

def sameShapeList : List Json → List Json → Bool
  | [], [] => true
  | x :: xs, y :: ys => sameShape x y && sameShapeList xs ys
  | _, _ => false
termination_by xs _ => sizeOf xs
decreasing_by all_goals (simp_wf; try omega)

def sameShapeFields : List (String × Json) → List (String × Json) → Bool
  | [], [] => true
  | (k, v) :: fs, (k', v') :: gs => k = k' && sameShape v v' && sameShapeFields fs gs
  | _, _ => false
termination_by fs _ => sizeOf fs
decreasing_by all_goals (simp_wf; try omega)

end

/-- `true` for a successful attempt result, `false` for a thrown error. -/
def isOkResult : Except ExtractError (Json × List String) → Bool
  | .ok _ => true
  | .error _ => false

/-- A product object whose `specifications` object lacks the
`strength` field entirely (absent, not `null`). -/
def productMissingStrength : Json :=
  .obj [("product_name", .str "Test Blend"),
        ("specifications", .obj [("origin", .str "Nicaragua")])]

/-- A payload whose only product is `productMissingStrength`. -/
def payloadMissingStrength : Json :=
  .obj [("page_type", .str "blend_page"),
        ("products", .arr [productMissingStrength])]

/-- A response stream whose first attempt returns unparseable content
and whose later attempts return a well-formed payload. -/
def flakyResponses : Nat → LLMResponse :=
  fun i => if i = 0 then some ("not json", none) else some ("ok", some Json.null)

/-- A response stream every attempt of which returns unparseable
content. -/
def allFailResponses : Nat → LLMResponse :=
  fun _ => some ("oops", none)

/-- An object whose `quantity_type` field holds a nested object that
itself has an out-of-enum `quantity_type` string. -/
def nestedQT : Json :=
  .obj [("quantity_type", .obj [("quantity_type", .str "humidor")])]

/-- A payload carrying `page_type: "unknown"` and an empty `products`
array. -/
def unknownPagePayload : Json :=
  .obj [("page_type", .str "unknown"), ("products", .arr [])]

theorem mem_VALID_lower : ∀ t ∈ VALID_TYPES, jsLower t = t := by decide

theorem mem_VALID_ne_empty : ∀ t ∈ VALID_TYPES, t ≠ "" := by decide

theorem contains_VALID_mem {s : String} (h : VALID_TYPES.contains s = true) :
    s ∈ VALID_TYPES := by simpa using h

theorem other_contains_VALID : VALID_TYPES.contains "other" = true := by decide

theorem other_mem_VALID : "other" ∈ VALID_TYPES := by decide

theorem sanitizeField_not_qt (k : String) (v : Json) (h : ¬ k = "quantity_type") :
    sanitizeField k v = sanitizeCore v := by
  cases v <;> simp [sanitizeField, h]

theorem sanitizeField_qt_str (s : String) :
    sanitizeField "quantity_type" (.str s) =
      if s = "" then (.str s, [])
      else if VALID_TYPES.contains (jsLower s) then (.str (jsLower s), [])
      else (.str "other", [warnMsg s]) := by
  simp [sanitizeField]

theorem sanitizeField_qt_null : sanitizeField "quantity_type" .null = sanitizeCore .null := by
  simp [sanitizeField]

theorem sanitizeField_qt_bool (b : Bool) :
    sanitizeField "quantity_type" (.bool b) = sanitizeCore (.bool b) := by
  simp [sanitizeField]

theorem sanitizeField_qt_num (q : Rat) :
    sanitizeField "quantity_type" (.num q) = sanitizeCore (.num q) := by
  simp [sanitizeField]

theorem sanitizeField_qt_arr (xs : List Json) :
    sanitizeField "quantity_type" (.arr xs) = sanitizeCore (.arr xs) := by
  simp [sanitizeField]

theorem sanitizeField_qt_obj (fs : List (String × Json)) :
    sanitizeField "quantity_type" (.obj fs) = sanitizeCore (.obj fs) := by
  simp [sanitizeField]

mutual

theorem qtOK_sanitize : ∀ j : Json, qtStringEnumOK (sanitizeCore j).1 = true
  | .null => by simp [sanitizeCore, qtStringEnumOK]
  | .bool b => by simp [sanitizeCore, qtStringEnumOK]
  | .num q => by simp [sanitizeCore, qtStringEnumOK]
  | .str s => by simp [sanitizeCore, qtStringEnumOK]
  | .arr xs => by
    have h := qtOK_sanitizeList xs
    simpa [sanitizeCore, qtStringEnumOK] using h
  | .obj fs => by
    have h := qtOK_sanitizeFields fs
    simpa [sanitizeCore, qtStringEnumOK] using h
termination_by j => sizeOf j
decreasing_by all_goals (simp_wf; try omega)

theorem qtOK_sanitizeList : ∀ xs : List Json, qtStringEnumOKList (sanitizeList xs).1 = true
  | [] => by simp [sanitizeList, qtStringEnumOKList]
  | x :: xs => by
    have h1 := qtOK_sanitize x
    have h2 := qtOK_sanitizeList xs
    simp [sanitizeList, qtStringEnumOKList, h1, h2]
termination_by xs => sizeOf xs
decreasing_by all_goals (simp_wf; try omega)

theorem qtOK_sanitizeFields :
    ∀ fs : List (String × Json), qtStringEnumOKFields (sanitizeFields fs).1 = true
  | [] => by simp [sanitizeFields, qtStringEnumOKFields]
  | (k, v) :: fs => by
    have h1 := qtOK_sanitizeField k v
    have h2 := qtOK_sanitizeFields fs
    simp [sanitizeFields, qtStringEnumOKFields, h1.1, h1.2, h2]
termination_by fs => sizeOf fs
decreasing_by all_goals (simp_wf; try omega)

theorem qtOK_sanitizeField :
    ∀ (k : String) (v : Json),
      qtFieldCond k (sanitizeField k v).1 = true ∧ qtStringEnumOK (sanitizeField k v).1 = true
  | k, v => by
    by_cases hk : k = "quantity_type"
    · subst hk
      cases v with
      | null => exact ⟨by simp [sanitizeField_qt_null, sanitizeCore, qtFieldCond],
          by simp [sanitizeField_qt_null, sanitizeCore, qtStringEnumOK]⟩
      | bool b => exact ⟨by simp [sanitizeField_qt_bool, sanitizeCore, qtFieldCond],
          by simp [sanitizeField_qt_bool, sanitizeCore, qtStringEnumOK]⟩
      | num q => exact ⟨by simp [sanitizeField_qt_num, sanitizeCore, qtFieldCond],
          by simp [sanitizeField_qt_num, sanitizeCore, qtStringEnumOK]⟩
      | str s =>
        rw [sanitizeField_qt_str]
        by_cases hs : s = ""
        · simp [hs, qtFieldCond, qtStringEnumOK]
        · by_cases hc : VALID_TYPES.contains (jsLower s) = true
          · have hc' : jsLower s ∈ VALID_TYPES := by simpa using hc
            simp [hs, hc', qtFieldCond, qtStringEnumOK]
          · have hc' : jsLower s ∉ VALID_TYPES := by simpa using hc
            simp [hs, hc', qtFieldCond, qtStringEnumOK, other_mem_VALID]
      | arr xs =>
        rw [sanitizeField_qt_arr]
        have h := qtOK_sanitize (Json.arr xs)
        refine ⟨?_, h⟩
        simp [sanitizeCore, qtFieldCond]
      | obj fs =>
        rw [sanitizeField_qt_obj]
        have h := qtOK_sanitize (Json.obj fs)
        refine ⟨?_, h⟩
        simp [sanitizeCore, qtFieldCond]
    · rw [sanitizeField_not_qt k v hk]
      exact ⟨by simp [qtFieldCond, hk], qtOK_sanitize v⟩
termination_by k v => sizeOf v + 1
decreasing_by all_goals (simp_wf; try omega)

end

theorem sanitizeField_qt_other :
    sanitizeField "quantity_type" (.str "other") = (.str "other", []) := by
  have h1 : ("other" : String) ≠ "" := by decide
  have h2 : jsLower "other" = "other" := by decide
  rw [sanitizeField_qt_str, if_neg h1, h2, if_pos other_contains_VALID]

mutual

theorem sanitize_idem : ∀ j : Json, sanitizeCore (sanitizeCore j).1 = ((sanitizeCore j).1, [])
  | .null => by simp [sanitizeCore]
  | .bool b => by simp [sanitizeCore]
  | .num q => by simp [sanitizeCore]
  | .str s => by simp [sanitizeCore]
  | .arr xs => by
    have h := sanitizeList_idem xs
    simp [sanitizeCore, h]
  | .obj fs => by
    have h := sanitizeFields_idem fs
    simp [sanitizeCore, h]
termination_by j => sizeOf j
decreasing_by all_goals (simp_wf; try omega)

theorem sanitizeList_idem :
    ∀ xs : List Json, sanitizeList (sanitizeList xs).1 = ((sanitizeList xs).1, [])
  | [] => by simp [sanitizeList]
  | x :: xs => by
    have h1 := sanitize_idem x
    have h2 := sanitizeList_idem xs
    simp [sanitizeList, h1, h2]
termination_by xs => sizeOf xs
decreasing_by all_goals (simp_wf; try omega)

theorem sanitizeFields_idem :
    ∀ fs : List (String × Json), sanitizeFields (sanitizeFields fs).1 = ((sanitizeFields fs).1, [])
  | [] => by simp [sanitizeFields]
  | (k, v) :: fs => by
    have h1 := sanitizeField_idem k v
    have h2 := sanitizeFields_idem fs
    simp [sanitizeFields, h1, h2]
termination_by fs => sizeOf fs
decreasing_by all_goals (simp_wf; try omega)

theorem sanitizeField_idem :
    ∀ (k : String) (v : Json), sanitizeField k (sanitizeField k v).1 = ((sanitizeField k v).1, [])
  | k, v => by
    by_cases hk : k = "quantity_type"
    · subst hk
      cases v with
      | null => simp [sanitizeField_qt_null, sanitizeCore]
      | bool b => simp [sanitizeField_qt_bool, sanitizeCore]
      | num q => simp [sanitizeField_qt_num, sanitizeCore]
      | str s =>
        rw [sanitizeField_qt_str]
        by_cases hs : s = ""
        · rw [if_pos hs]
          show sanitizeField "quantity_type" (.str s) = (.str s, [])
          rw [sanitizeField_qt_str, if_pos hs]
        · rw [if_neg hs]
          by_cases hc : VALID_TYPES.contains (jsLower s) = true
          · have hm : jsLower s ∈ VALID_TYPES := contains_VALID_mem hc
            have hlow : jsLower (jsLower s) = jsLower s := mem_VALID_lower _ hm
            have hne : jsLower s ≠ "" := mem_VALID_ne_empty _ hm
            rw [if_pos hc]
            show sanitizeField "quantity_type" (.str (jsLower s)) = (.str (jsLower s), [])
            rw [sanitizeField_qt_str, if_neg hne, hlow, if_pos hc]
          · rw [if_neg hc]
            show sanitizeField "quantity_type" (.str "other") = (.str "other", [])
            exact sanitizeField_qt_other
      | arr xs =>
        have h := sanitizeList_idem xs
        simp [sanitizeField_qt_arr, sanitizeCore, h]
      | obj fs =>
        have h := sanitizeFields_idem fs
        simp [sanitizeField_qt_obj, sanitizeCore, h]
    · rw [sanitizeField_not_qt k v hk, sanitizeField_not_qt k _ hk]
      exact sanitize_idem v
termination_by k v => sizeOf v + 1
decreasing_by all_goals (simp_wf; try omega)

end

mutual

theorem strip_sanitize : ∀ j : Json, stripTargets (sanitizeCore j).1 = stripTargets j
  | .null => by simp [sanitizeCore]
  | .bool b => by simp [sanitizeCore]
  | .num q => by simp [sanitizeCore]
  | .str s => by simp [sanitizeCore]
  | .arr xs => by
    have h := strip_sanitizeList xs
    simp [sanitizeCore, stripTargets, h]
  | .obj fs => by
    have h := strip_sanitizeFields fs
    simp [sanitizeCore, stripTargets, h]
termination_by j => sizeOf j
decreasing_by all_goals (simp_wf; try omega)

theorem strip_sanitizeList :
    ∀ xs : List Json, stripTargetsList (sanitizeList xs).1 = stripTargetsList xs
  | [] => by simp [sanitizeList]
  | x :: xs => by
    have h1 := strip_sanitize x
    have h2 := strip_sanitizeList xs
    simp [sanitizeList, stripTargetsList, h1, h2]
termination_by xs => sizeOf xs
decreasing_by all_goals (simp_wf; try omega)

theorem strip_sanitizeFields :
    ∀ fs : List (String × Json), stripTargetsFields (sanitizeFields fs).1 = stripTargetsFields fs
  | [] => by simp [sanitizeFields]
  | (k, v) :: fs => by
    have h2 := strip_sanitizeFields fs
    by_cases hk : k = "package_type" ∨ k = "quantity_type"
    · simp [sanitizeFields, stripTargetsFields, hk, h2]
    · have hk2 : ¬ k = "quantity_type" := fun h => hk (Or.inr h)
      have h1 := strip_sanitize v
      simp [sanitizeFields, stripTargetsFields, hk, sanitizeField_not_qt k v hk2, h1]
      exact h2
termination_by fs => sizeOf fs
decreasing_by all_goals (simp_wf; try omega)

end

mutual

theorem shape_sanitize : ∀ j : Json, sameShape j (sanitizeCore j).1 = true
  | .null => by simp [sanitizeCore, sameShape]
  | .bool b => by simp [sanitizeCore, sameShape]
  | .num q => by simp [sanitizeCore, sameShape]
  | .str s => by simp [sanitizeCore, sameShape]
  | .arr xs => by
    have h := shape_sanitizeList xs
    simp [sanitizeCore, sameShape, h]
  | .obj fs => by
    have h := shape_sanitizeFields fs
    simp [sanitizeCore, sameShape, h]
termination_by j => sizeOf j
decreasing_by all_goals (simp_wf; try omega)

theorem shape_sanitizeList :
    ∀ xs : List Json, sameShapeList xs (sanitizeList xs).1 = true
  | [] => by simp [sanitizeList, sameShapeList]
  | x :: xs => by
    have h1 := shape_sanitize x
    have h2 := shape_sanitizeList xs
    simp [sanitizeList, sameShapeList, h1, h2]
termination_by xs => sizeOf xs
decreasing_by all_goals (simp_wf; try omega)

theorem shape_sanitizeFields :
    ∀ fs : List (String × Json), sameShapeFields fs (sanitizeFields fs).1 = true
  | [] => by simp [sanitizeFields, sameShapeFields]
  | (k, v) :: fs => by
    have h2 := shape_sanitizeFields fs
    have h1 := shape_sanitizeField k v
    simp [sanitizeFields, sameShapeFields, h1, h2]
termination_by fs => sizeOf fs
decreasing_by all_goals (simp_wf; try omega)

theorem shape_sanitizeField :
    ∀ (k : String) (v : Json), sameShape v (sanitizeField k v).1 = true
  | k, v => by
    by_cases hk : k = "quantity_type"
    · subst hk
      cases v with
      | null => simp [sanitizeField_qt_null, sanitizeCore, sameShape]
      | bool b => simp [sanitizeField_qt_bool, sanitizeCore, sameShape]
      | num q => simp [sanitizeField_qt_num, sanitizeCore, sameShape]
      | str s =>
        rw [sanitizeField_qt_str]
        by_cases hs : s = ""
        · simp [hs, sameShape]
        · by_cases hc : VALID_TYPES.contains (jsLower s) = true
          · have hc' : jsLower s ∈ VALID_TYPES := by simpa using hc
            simp [hs, hc', sameShape]
          · have hc' : jsLower s ∉ VALID_TYPES := by simpa using hc
            simp [hs, hc', sameShape]
      | arr xs =>
        have h := shape_sanitizeList xs
        simp [sanitizeField_qt_arr, sanitizeCore, sameShape, h]
      | obj fs =>
        have h := shape_sanitizeFields fs
        simp [sanitizeField_qt_obj, sanitizeCore, sameShape, h]
    · rw [sanitizeField_not_qt k v hk]
      exact shape_sanitize v
termination_by k v => sizeOf v + 1
decreasing_by all_goals (simp_wf; try omega)

end

mutual

theorem fuel_sanitize :
    ∀ (n : Nat) (j : Json), Json.depth j ≤ n → sanitizeFuel n j = some (sanitizeCore j)
  | _, .null, _ => by simp [sanitizeFuel, sanitizeCore]
  | _, .bool b, _ => by simp [sanitizeFuel, sanitizeCore]
  | _, .num q, _ => by simp [sanitizeFuel, sanitizeCore]
  | _, .str s, _ => by simp [sanitizeFuel, sanitizeCore]
  | n, .arr xs, h => by
    have hd : Json.depthList xs + 1 ≤ n := by simpa [Json.depth] using h
    obtain ⟨m, rfl⟩ : ∃ m, n = m + 1 := ⟨n - 1, by omega⟩
    have hl := fuel_sanitizeList m xs (by omega)
    simp [sanitizeFuel, sanitizeCore, hl]
  | n, .obj fs, h => by
    have hd : Json.depthFields fs + 1 ≤ n := by simpa [Json.depth] using h
    obtain ⟨m, rfl⟩ : ∃ m, n = m + 1 := ⟨n - 1, by omega⟩
    have hl := fuel_sanitizeFields m fs (by omega)
    simp [sanitizeFuel, sanitizeCore, hl]
termination_by n j => (n, sizeOf j)
decreasing_by all_goals (simp_wf; omega)

theorem fuel_sanitizeList :
    ∀ (n : Nat) (xs : List Json), Json.depthList xs ≤ n →
      sanitizeFuelList n xs = some (sanitizeList xs)
  | _, [], _ => by simp [sanitizeFuelList, sanitizeList]
  | n, x :: xs, h => by
    have hx : Json.depth x ≤ n := le_trans (le_max_left _ _) (by simpa [Json.depthList] using h)
    have hxs : Json.depthList xs ≤ n := le_trans (le_max_right _ _) (by simpa [Json.depthList] using h)
    have h1 := fuel_sanitize n x hx
    have h2 := fuel_sanitizeList n xs hxs
    simp [sanitizeFuelList, sanitizeList, h1, h2]
termination_by n xs => (n, sizeOf xs)
decreasing_by all_goals (simp_wf; omega)

theorem fuel_sanitizeFields :
    ∀ (n : Nat) (fs : List (String × Json)), Json.depthFields fs ≤ n →
      sanitizeFuelFields n fs = some (sanitizeFields fs)
  | _, [], _ => by simp [sanitizeFuelFields, sanitizeFields]
  | n, (k, v) :: fs, h => by
    have hv : Json.depth v ≤ n := le_trans (le_max_left _ _) (by simpa [Json.depthFields] using h)
    have hfs : Json.depthFields fs ≤ n :=
      le_trans (le_max_right _ _) (by simpa [Json.depthFields] using h)
    have h1 := fuel_sanitizeField n k v hv
    have h2 := fuel_sanitizeFields n fs hfs
    simp [sanitizeFuelFields, sanitizeFields, h1, h2]
termination_by n fs => (n, sizeOf fs)
decreasing_by all_goals (simp_wf; omega)

theorem fuel_sanitizeField :
    ∀ (n : Nat) (k : String) (v : Json), Json.depth v ≤ n →
      sanitizeFuelField n k v = some (sanitizeField k v)
  | n, k, .null, _ => by
    by_cases hk : k = "quantity_type"
    · subst hk; simp [sanitizeFuelField, sanitizeFuel, sanitizeField_qt_null, sanitizeCore]
    · simp [sanitizeFuelField, hk, sanitizeFuel, sanitizeField_not_qt _ _ hk, sanitizeCore]
  | n, k, .bool b, _ => by
    by_cases hk : k = "quantity_type"
    · subst hk; simp [sanitizeFuelField, sanitizeFuel, sanitizeField_qt_bool, sanitizeCore]
    · simp [sanitizeFuelField, hk, sanitizeFuel, sanitizeField_not_qt _ _ hk, sanitizeCore]
  | n, k, .num q, _ => by
    by_cases hk : k = "quantity_type"
    · subst hk; simp [sanitizeFuelField, sanitizeFuel, sanitizeField_qt_num, sanitizeCore]
    · simp [sanitizeFuelField, hk, sanitizeFuel, sanitizeField_not_qt _ _ hk, sanitizeCore]
  | n, k, .str s, _ => by
    by_cases hk : k = "quantity_type"
    · subst hk
      rw [sanitizeField_qt_str]
      by_cases hs : s = ""
      · simp [sanitizeFuelField, hs]
      · by_cases hc : VALID_TYPES.contains (jsLower s) = true
        · have hc' : jsLower s ∈ VALID_TYPES := by simpa using hc
          simp [sanitizeFuelField, hs, hc']
        · have hc' : jsLower s ∉ VALID_TYPES := by simpa using hc
          simp [sanitizeFuelField, hs, hc']
    · simp [sanitizeFuelField, hk, sanitizeFuel, sanitizeField_not_qt _ _ hk, sanitizeCore]
  | n, k, .arr xs, h => by
    have h1 := fuel_sanitize n (Json.arr xs) h
    by_cases hk : k = "quantity_type"
    · subst hk; simp [sanitizeFuelField, sanitizeField_qt_arr, h1]
    · simp [sanitizeFuelField, hk, sanitizeField_not_qt _ _ hk, h1]
  | n, k, .obj fs, h => by
    have h1 := fuel_sanitize n (Json.obj fs) h
    by_cases hk : k = "quantity_type"
    · subst hk; simp [sanitizeFuelField, sanitizeField_qt_obj, h1]
    · simp [sanitizeFuelField, hk, sanitizeField_not_qt _ _ hk, h1]
termination_by n k v => (n, sizeOf v + 1)
decreasing_by all_goals (simp_wf; omega)

end

theorem sanitizeFields_getElem? :
    ∀ (fs : List (String × Json)) (i : Nat),
      (sanitizeFields fs).1[i]? = (fs[i]?).map fun kv => (kv.1, (sanitizeField kv.1 kv.2).1)
  | [], i => by simp [sanitizeFields]
  | (k, v) :: fs, 0 => by simp [sanitizeFields]
  | (k, v) :: fs, i + 1 => by
    have h := sanitizeFields_getElem? fs i
    simp [sanitizeFields, h]

theorem extractWithRetry_errors_aux :
    ∀ (n : Nat) (responses : Nat → LLMResponse),
      (∀ i, i < n → isOkResult (attemptExtract (responses i)) = false) →
      extractWithRetry n responses = attemptExtract (responses n)
  | 0, r, _ => by simp [extractWithRetry]
  | n + 1, r, h => by
    have h0 := h 0 (by omega)
    have hrec := extractWithRetry_errors_aux n (fun i => r (i + 1))
      (fun i hi => h (i + 1) (by omega))
    cases he : attemptExtract (r 0) with
    | ok v => rw [he] at h0; simp [isOkResult] at h0
    | error e => simp [extractWithRetry, he, hrec]

/-- C1 (amended): only fields named `quantity_type` receive the enum
inspection: a `quantity_type` field holding a non-empty string is
rewritten to its lower-casing when that is in the accepted enum and to
`"other"` otherwise, while a `package_type` field holding a string
passes through unchanged. -/
theorem sanitize_quantity_type_only_per_index :
    ∀ (fs : List (String × Json)) (i : Nat) (s : String),
      (fs[i]? = some ("quantity_type", Json.str s) → ¬ s = "" →
        (Json.objFields (sanitizeExtractionData (Json.obj fs)))[i]? =
          some ("quantity_type",
            if VALID_TYPES.contains (jsLower s) then Json.str (jsLower s)
            else Json.str "other"))
      ∧ (fs[i]? = some ("package_type", Json.str s) →
        (Json.objFields (sanitizeExtractionData (Json.obj fs)))[i]? =
          some ("package_type", Json.str s)) := by
  intro fs i s
  have hobj : Json.objFields (sanitizeExtractionData (Json.obj fs)) = (sanitizeFields fs).1 := by
    simp [sanitizeExtractionData, sanitizeCore, Json.objFields]
  constructor
  · intro h hs
    rw [hobj, sanitizeFields_getElem?, h]
    simp only [Option.map_some']
    rw [sanitizeField_qt_str, if_neg hs]
    by_cases hc : VALID_TYPES.contains (jsLower s) = true
    · have hc' : jsLower s ∈ VALID_TYPES := by simpa using hc
      simp [hc, hc']
    · have hc' : jsLower s ∉ VALID_TYPES := by simpa using hc
      simp [hc, hc']
  · intro h
    rw [hobj, sanitizeFields_getElem?, h]
    have hpt : sanitizeField "package_type" (Json.str s) = sanitizeCore (Json.str s) :=
      sanitizeField_not_qt _ _ (by decide)
    simp [hpt, sanitizeCore]

/-- Witness for C1 (amended) at `"HUMIDOR"`. -/
theorem sanitize_quantity_type_only_per_index_witness :
    (Json.objFields (sanitizeExtractionData
        (Json.obj [("quantity_type", Json.str "HUMIDOR")])))[0]? =
      some ("quantity_type",
        if VALID_TYPES.contains (jsLower "HUMIDOR") then Json.str (jsLower "HUMIDOR")
        else Json.str "other")
    ∧ (Json.objFields (sanitizeExtractionData
        (Json.obj [("package_type", Json.str "HUMIDOR")])))[0]? =
      some ("package_type", Json.str "HUMIDOR") :=
  ⟨(sanitize_quantity_type_only_per_index
      [("quantity_type", Json.str "HUMIDOR")] 0 "HUMIDOR").1 rfl (by decide),
   (sanitize_quantity_type_only_per_index
      [("package_type", Json.str "HUMIDOR")] 0 "HUMIDOR").2 rfl⟩

/-- Counterexample to C1 as stated: a `package_type` field whose value
lower-cases to a string outside the enum is NOT rewritten to
`"other"`; the Normalizer leaves it untouched. -/
theorem sanitize_package_type_uninspected_cex :
    sanitizeExtractionData (.obj [("package_type", .str "humidor")]) =
        .obj [("package_type", .str "humidor")]
      ∧ jsLower "humidor" = "humidor"
      ∧ VALID_TYPES.contains "humidor" = false
      ∧ ¬ sanitizeExtractionData (.obj [("package_type", .str "humidor")]) =
          .obj [("package_type", .str "other")] := by
  have h1 : sanitizeExtractionData (.obj [("package_type", .str "humidor")]) =
      .obj [("package_type", .str "humidor")] := by
    simp [sanitizeExtractionData, sanitizeCore, sanitizeFields, sanitizeField]
  refine ⟨h1, by decide, by decide, ?_⟩
  rw [h1]
  simp

/-- C2 (amended): in the Normalizer's output every occurrence of a
field named `quantity_type` whose value is a non-empty string is a
member of the accepted enum; `package_type` fields and non-string
`quantity_type` values are not constrained. -/
theorem sanitize_quantity_type_string_in_enum :
    ∀ x : Json, qtStringEnumOK (sanitizeExtractionData x) = true :=
  fun x => qtOK_sanitize x

/-- Counterexample to C2 as stated: after normalization a
`package_type` field may hold a string outside the enum ∪ {null}. -/
theorem sanitize_target_enum_or_null_cex :
    enumOrNullAtTargets
      (sanitizeExtractionData (.obj [("package_type", .str "humidor")])) = false := by
  have h1 : sanitizeExtractionData (.obj [("package_type", .str "humidor")]) =
      .obj [("package_type", .str "humidor")] := by
    simp [sanitizeExtractionData, sanitizeCore, sanitizeFields, sanitizeField]
  have h2 : VALID_TYPES.contains "humidor" = false := by decide
  have h3 : "humidor" ∉ VALID_TYPES := by decide
  rw [h1]
  simp [enumOrNullAtTargets, enumOrNullAtTargetsFields, targetFieldCond, h2, h3]

/-- C3: the Normalizer returns a structurally identical tree (same
keys, array lengths and nesting) and changes nothing outside fields
named `package_type` or `quantity_type`. -/
theorem sanitize_frame_preservation :
    ∀ x : Json, stripTargets (sanitizeExtractionData x) = stripTargets x ∧
      sameShape x (sanitizeExtractionData x) = true :=
  fun x => ⟨strip_sanitize x, shape_sanitize x⟩

/-- C4: the Normalizer is idempotent. -/
theorem sanitize_idempotent :
    ∀ x : Json, sanitizeExtractionData (sanitizeExtractionData x) = sanitizeExtractionData x := by
  intro x
  unfold sanitizeExtractionData
  rw [sanitize_idem x]

/-- C5: the Normalizer terminates on every finite JSON value — a fuel
budget equal to the nesting depth always suffices — and always
succeeds, returning the sanitized value and its warnings without
raising. -/
theorem sanitize_terminates_with_depth_fuel :
    ∀ x : Json,
      sanitizeFuel (Json.depth x) x = some (sanitizeExtractionData x, sanitizeWarnings x) :=
  fun x => fuel_sanitize (Json.depth x) x le_rfl

/-- C6 (amended): after normalization the core performs no schema
validation of its own — every successfully parsed payload is returned
sanitized, whatever its shape. -/
theorem attempt_no_schema_validation :
    ∀ (content : String) (j : Json), ¬ content = "" →
      attemptExtract (some (content, some j)) = .ok (sanitizeCore j) := by
  intro c j h
  simp [attemptExtract, h]

/-- Witness for C6 (amended). -/
theorem attempt_no_schema_validation_witness :
    attemptExtract (some ("raw", some Json.null)) = .ok (Json.null, []) := by
  have h := attempt_no_schema_validation "raw" Json.null (by decide)
  simpa [sanitizeCore] using h

/-- Counterexample to C6 as stated: a payload whose `specifications`
object lacks the required `strength` field entirely is accepted and
returned unchanged; no `SchemaViolation` is raised. -/
theorem missing_strength_accepted_cex :
    payloadMissingStrength.getField? "products" = some (.arr [productMissingStrength])
    ∧ productMissingStrength.getField? "specifications" =
        some (.obj [("origin", .str "Nicaragua")])
    ∧ (Json.obj [("origin", .str "Nicaragua")]).getField? "strength" = none
    ∧ extractWithRetry 0 (fun _ => some ("raw", some payloadMissingStrength)) =
        .ok (payloadMissingStrength, []) := by
  have hsan : sanitizeCore payloadMissingStrength = (payloadMissingStrength, []) := by
    simp [payloadMissingStrength, productMissingStrength, sanitizeCore, sanitizeFields,
      sanitizeField, sanitizeList]
  refine ⟨?_, ?_, ?_, ?_⟩
  · simp [payloadMissingStrength, Json.getField?, List.lookup]
  · simp [productMissingStrength, Json.getField?, List.lookup]
  · simp [Json.getField?, List.lookup]
  · simp [extractWithRetry, attemptExtract, hsan]

/-- C7 (amended): an unparseable response fails its attempt, but the
attempt is retried inside `extractWithRetry`; only when every attempt
has failed is the final attempt's error propagated to the caller. -/
theorem retry_propagates_after_exhaustion :
    ∀ (n : Nat) (responses : Nat → LLMResponse),
      (∀ i, i < n → isOkResult (attemptExtract (responses i)) = false) →
      extractWithRetry n responses = attemptExtract (responses n) :=
  extractWithRetry_errors_aux

/-- Witness for C7 (amended): three exhausted parse failures propagate
the last attempt's error. -/
theorem retry_propagates_after_exhaustion_witness :
    (∀ i, i < 3 → isOkResult (attemptExtract (allFailResponses i)) = false)
    ∧ extractWithRetry 3 allFailResponses = attemptExtract (allFailResponses 3) := by
  have hall : ∀ i, i < 3 → isOkResult (attemptExtract (allFailResponses i)) = false := by
    intro i _
    simp [allFailResponses, attemptExtract, isOkResult]
  exact ⟨hall, retry_propagates_after_exhaustion 3 allFailResponses hall⟩

/-- Counterexample to C7 as stated: a first response that is not
parseable as JSON does not make the page fail — `extractWithRetry`
retries and succeeds on the next attempt. -/
theorem parse_failure_retried_cex :
    attemptExtract (flakyResponses 0) = .error (.parseFailure "not json")
    ∧ extractWithRetry 3 flakyResponses = .ok (Json.null, []) := by
  have h0 : attemptExtract (flakyResponses 0) = .error (.parseFailure "not json") := by
    simp [flakyResponses, attemptExtract]
  have h1 : ∀ i, attemptExtract (flakyResponses (i + 1)) = .ok (Json.null, []) := by
    intro i
    simp [flakyResponses, attemptExtract, sanitizeCore]
  refine ⟨h0, ?_⟩
  show extractWithRetry (2 + 1) flakyResponses = .ok (Json.null, [])
  rw [extractWithRetry]
  simp only [h0]
  show extractWithRetry (1 + 1) (fun i => flakyResponses (i + 1)) = .ok (Json.null, [])
  rw [extractWithRetry]
  simp [h1 0]

/-- C8: the closed `page_type` value set of the schema contract is
exactly the six listed values; `"unknown"` belongs to it and a payload
classified `"unknown"` with no products is accepted, never an error. -/
theorem page_type_enum_closed_and_unknown_ok :
    (∀ s : String, s ∈ PAGE_TYPE_ENUM ↔
      (s = "blend_page" ∨ s = "brand_page" ∨ s = "search_page" ∨
       s = "single_vitola_page" ∨ s = "collection_page" ∨ s = "unknown"))
    ∧ "unknown" ∈ PAGE_TYPE_ENUM
    ∧ extractWithRetry 0 (fun _ => some ("raw", some unknownPagePayload)) =
        .ok (unknownPagePayload, []) := by
  have hsan : sanitizeCore unknownPagePayload = (unknownPagePayload, []) := by
    simp [unknownPagePayload, sanitizeCore, sanitizeFields, sanitizeField, sanitizeList]
  refine ⟨fun s => by simp [PAGE_TYPE_ENUM], by decide, ?_⟩
  simp [extractWithRetry, attemptExtract, hsan]

/-- C9: the Normalizer's accepted enum is exactly the twelve listed
packaging values, and the schema contract's `package_type` enum is the
same list plus the JSON `null`. -/
theorem package_type_enum_agreement :
    (∀ s : String, s ∈ VALID_TYPES ↔
      (s = "single" ∨ s = "pack" ∨ s = "box" ∨ s = "bundle" ∨ s = "sampler" ∨
       s = "tin" ∨ s = "tube" ∨ s = "cabinet" ∨ s = "case" ∨ s = "sleeve" ∨
       s = "other" ∨ s = "unspecified"))
    ∧ SCHEMA_PACKAGE_TYPE_ENUM = VALID_TYPES.map some ++ [none] :=
  ⟨fun s => by simp [VALID_TYPES], by decide⟩

/-- C10 (amended): scalar inputs pass through the Normalizer
unchanged, and a `quantity_type` field holding `null`, the empty
string, or a non-string scalar gets no rewrite and no warning; an
object or array value at `quantity_type` is recursed into like any
other field. -/
theorem scalar_and_nonstring_qt_passthrough :
    (∀ x : Json, Json.isScalar x = true → sanitizeCore x = (x, []))
    ∧ sanitizeField "quantity_type" Json.null = (Json.null, [])
    ∧ sanitizeField "quantity_type" (Json.str "") = (Json.str "", [])
    ∧ (∀ b, sanitizeField "quantity_type" (Json.bool b) = (Json.bool b, []))
    ∧ (∀ q, sanitizeField "quantity_type" (Json.num q) = (Json.num q, [])) := by
  refine ⟨?_, ?_, ?_, ?_, ?_⟩
  · intro x hx
    cases x <;> simp_all [Json.isScalar, sanitizeCore]
  · simp [sanitizeField_qt_null, sanitizeCore]
  · rw [sanitizeField_qt_str]; simp
  · intro b; simp [sanitizeField_qt_bool, sanitizeCore]
  · intro q; simp [sanitizeField_qt_num, sanitizeCore]

/-- Witness for C10 (amended) at the scalar `7`. -/
theorem scalar_and_nonstring_qt_passthrough_witness :
    sanitizeCore (Json.num 7) = (Json.num 7, []) :=
  scalar_and_nonstring_qt_passthrough.1 (Json.num 7) rfl

/-- Counterexample to C10 as stated: a `quantity_type` field holding
an object (a non-string value) is NOT left exactly as it was — the
Normalizer recurses into it, rewrites a nested out-of-enum
`quantity_type` and logs a warning. -/
theorem nonstring_qt_recursed_cex :
    sanitizeExtractionData nestedQT =
        .obj [("quantity_type", .obj [("quantity_type", .str "other")])]
    ∧ sanitizeWarnings nestedQT = [warnMsg "humidor"]
    ∧ ¬ sanitizeExtractionData nestedQT = nestedQT := by
  have h1 : sanitizeExtractionData nestedQT =
      .obj [("quantity_type", .obj [("quantity_type", .str "other")])] := by
    simp [nestedQT, sanitizeExtractionData, sanitizeCore, sanitizeFields, sanitizeField,
      jsLower, jsLowerChar, VALID_TYPES]
  have h2 : sanitizeWarnings nestedQT = [warnMsg "humidor"] := by
    simp [nestedQT, sanitizeWarnings, sanitizeCore, sanitizeFields, sanitizeField,
      jsLower, jsLowerChar, VALID_TYPES]
  refine ⟨h1, h2, ?_⟩
  rw [h1]
  simp [nestedQT]
